import Mathlib

/-!
Verification of the storage-engine core of a BusTub-style buffer pool,
clock replacer and linear-probe hash index.

The definitions below are a shallow embedding of the four C++ source files
`buffer/clock_replacer.cpp`, `buffer/buffer_pool_manager.cpp`,
`container/hash/linear_probe_hash_table.cpp` and
`storage/page/hash_table_block_page.cpp`, specialised (as the sources
explicitly instantiate) to `KeyType = ValueType = int`, modelled as `Int`.
Bit-vectors (`std::vector<bool>`, the slot bitmaps) are modelled as
`Nat → Bool` indexed by slot; the byte-level guards of the C++ are kept.
-/

set_option maxRecDepth 4000

/-! ## Clock replacer (`buffer/clock_replacer.cpp`) -/

/-- Replacer state: `ref_f` and `in_f` are the two bit-vectors of size
`buffer_size`; `clock_hand` is the sweep cursor.  -/
@[ext]
structure ClockReplacer where
  buffer_size : Nat
  clock_hand : Nat
  ref_f : Nat → Bool
  in_f : Nat → Bool

/-- Constructor `ClockReplacer(num_pages)`: hand at 0, both bit-vectors zero. -/
def mkClockReplacer (num_pages : Nat) : ClockReplacer :=
  { buffer_size := num_pages, clock_hand := 0
    ref_f := fun _ => false, in_f := fun _ => false }

/-- The sweep loop of `ClockReplacer::Victim`: the `for(i = 0; i < size; i++)`
loop visiting `index = (clock_hand + i) % buffer_size`, written with the
remaining iteration count `gas = size - i` as the structural argument.
Returns the frame chosen by `break` (if any), the mutated `ref_f`, and the
fallback candidate `candi` (`none` models `candi == -1`). -/
def victimLoop (size hand : Nat) (inf : Nat → Bool) :
    Nat → (Nat → Bool) → Option Nat → Nat →
    Option Nat × (Nat → Bool) × Option Nat
  | 0, ref, candi, _i => (none, ref, candi)
  | gas + 1, ref, candi, i =>
    let index := (hand + i) % size
    if inf index && !ref index then
      (some index, ref, candi)
    else if inf index && ref index then
      victimLoop size hand inf gas (fun j => if j = index then false else ref j)
        (match candi with | none => some index | some c => some c) (i + 1)
    else
      victimLoop size hand inf gas ref candi (i + 1)

/-- `ClockReplacer::Victim`. On a `break` the chosen index is evicted;
otherwise the fallback candidate (if any) is evicted; otherwise `none`. -/
def ClockReplacer.Victim (r : ClockReplacer) : Option Nat × ClockReplacer :=
  match victimLoop r.buffer_size r.clock_hand r.in_f r.buffer_size r.ref_f none 0 with
  | (some index, ref1, _) =>
      (some index,
       { r with clock_hand := (index + 1) % r.buffer_size, ref_f := ref1,
                in_f := fun j => if j = index then false else r.in_f j })
  | (none, ref1, none) => (none, { r with ref_f := ref1 })
  | (none, ref1, some candi) =>
      (some candi,
       { r with clock_hand := (candi + 1) % r.buffer_size, ref_f := ref1,
                in_f := fun j => if j = candi then false else r.in_f j })

/-- `ClockReplacer::Pin` for a non-negative frame id (as always passed by the
buffer pool manager): guard `frame_id >= buffer_size` returns, else clear
`in_f[frame_id]`. -/
def ClockReplacer.Pin (r : ClockReplacer) (frame_id : Nat) : ClockReplacer :=
  if r.buffer_size ≤ frame_id then r
  else { r with in_f := fun j => if j = frame_id then false else r.in_f j }

/-- `ClockReplacer::Unpin` for a non-negative frame id: guard
`frame_id >= buffer_size` returns, else set `in_f` and `ref_f`. -/
def ClockReplacer.Unpin (r : ClockReplacer) (frame_id : Nat) : ClockReplacer :=
  if r.buffer_size ≤ frame_id then r
  else { r with in_f := fun j => if j = frame_id then true else r.in_f j,
                ref_f := fun j => if j = frame_id then true else r.ref_f j }

/-- `ClockReplacer::Pin` on the full signed `frame_id_t` domain. The source
guard is only `frame_id >= int32_t(buffer_size)`; a negative id falls through
to `in_f[frame_id]`, an out-of-bounds `std::vector<bool>` write (undefined
behaviour), modelled as `none`. -/
def ClockReplacer.PinSigned (r : ClockReplacer) (frame_id : Int) :
    Option ClockReplacer :=
  if (r.buffer_size : Int) ≤ frame_id then some r
  else if 0 ≤ frame_id then
    some { r with in_f := fun j => if j = frame_id.toNat then false else r.in_f j }
  else none

/-- `ClockReplacer::Unpin` on the full signed `frame_id_t` domain; same
guard as `PinSigned`, negative ids are out-of-bounds writes (`none`). -/
def ClockReplacer.UnpinSigned (r : ClockReplacer) (frame_id : Int) :
    Option ClockReplacer :=
  if (r.buffer_size : Int) ≤ frame_id then some r
  else if 0 ≤ frame_id then
    some { r with
           in_f := fun j => if j = frame_id.toNat then true else r.in_f j,
           ref_f := fun j => if j = frame_id.toNat then true else r.ref_f j }
  else none

/-- `ClockReplacer::Size`: count of set bits of `in_f`. -/
def ClockReplacer.Size (r : ClockReplacer) : Nat :=
  ((List.range r.buffer_size).filter (fun i => r.in_f i)).length

/-- First in-replacer position in sweep order starting at `clock_hand`,
scanning sweep steps `i, i+1, ...` with `gas` steps remaining. -/
def firstFrom (size hand : Nat) (inf : Nat → Bool) : Nat → Nat → Option Nat
  | 0, _i => none
  | gas + 1, i =>
    if inf ((hand + i) % size) then some ((hand + i) % size)
    else firstFrom size hand inf gas (i + 1)

/-- The replacer state of spec scenario S4: capacity 3, then
`Unpin(0)`, `Unpin(1)`, `Unpin(2)`, `Unpin(0)`. -/
def rS4 : ClockReplacer :=
  ((((mkClockReplacer 3).Unpin 0).Unpin 1).Unpin 2).Unpin 0

/-- A capacity-2 replacer with both frames unpinned (both ref bits set). -/
def rC5 : ClockReplacer := ((mkClockReplacer 2).Unpin 0).Unpin 1

/-- `INVALID_PAGE_ID` (= -1). -/
def INVALID_PAGE_ID : Int := -1

/-! ## Hash table block page (`storage/page/hash_table_block_page.cpp`)

The sources instantiate `KeyType = ValueType = int`; `sizeof(MappingType)`
is 8, so `BLOCK_ARRAY_SIZE = (4 * PAGE_SIZE / (4 * sizeof(MappingType) + 1))
= 16384 / 33 = 496` and the bitmaps occupy `(496 - 1) / 8 + 1 = 62` bytes.
The byte-packed bitmaps are modelled as `Nat → Bool` indexed by slot
(slot `i` is bit `i % 8` of byte `i / 8`, an injective addressing); the
byte-level guard `idx >= sizeof(occupied_)` of the source is kept as
`BITMAP_BYTES ≤ bucket_ind / 8`. -/

def BLOCK_ARRAY_SIZE : Nat := 496

def BITMAP_BYTES : Nat := (BLOCK_ARRAY_SIZE - 1) / 8 + 1

structure HashTableBlockPage where
  occupied_ : Nat → Bool
  readable_ : Nat → Bool
  array_ : Nat → Int × Int

/-- `KeyAt`: first component of slot `bucket_ind`. -/
def HashTableBlockPage.KeyAt (b : HashTableBlockPage) (bucket_ind : Nat) : Int :=
  (b.array_ bucket_ind).1

/-- `ValueAt`: second component of slot `bucket_ind`. -/
def HashTableBlockPage.ValueAt (b : HashTableBlockPage) (bucket_ind : Nat) : Int :=
  (b.array_ bucket_ind).2

/-- `IsOccupied`: guarded bitmap read. -/
def HashTableBlockPage.IsOccupied (b : HashTableBlockPage) (bucket_ind : Nat) : Bool :=
  if BITMAP_BYTES ≤ bucket_ind / 8 then false else b.occupied_ bucket_ind

/-- `IsReadable`: guarded bitmap read. -/
def HashTableBlockPage.IsReadable (b : HashTableBlockPage) (bucket_ind : Nat) : Bool :=
  if BITMAP_BYTES ≤ bucket_ind / 8 then false else b.readable_ bucket_ind

/-- `HashTableBlockPage::Insert`: fail on an occupied slot, else set both
bits and write the pair. (The source's unguarded bitmap write is only
defined behaviour for `bucket_ind < BLOCK_ARRAY_SIZE`, the only way it is
called.) -/
def HashTableBlockPage.Insert (b : HashTableBlockPage) (bucket_ind : Nat)
    (k v : Int) : Bool × HashTableBlockPage :=
  if b.IsOccupied bucket_ind then (false, b)
  else
    (true,
     { occupied_ := fun j => if j = bucket_ind then true else b.occupied_ j,
       readable_ := fun j => if j = bucket_ind then true else b.readable_ j,
       array_ := fun j => if j = bucket_ind then (k, v) else b.array_ j })

/-- `HashTableBlockPage::Remove`: byte-guard, then clear only the readable
bit (`occupied_` is never touched — the slot becomes a tombstone). -/
def HashTableBlockPage.Remove (b : HashTableBlockPage) (bucket_ind : Nat) :
    HashTableBlockPage :=
  if BITMAP_BYTES ≤ bucket_ind / 8 then b
  else { b with readable_ := fun j => if j = bucket_ind then false else b.readable_ j }

/-- A zero-filled block page, as produced by `NewPage` (`ResetMemory`). -/
def emptyBlockPage : HashTableBlockPage :=
  { occupied_ := fun _ => false, readable_ := fun _ => false,
    array_ := fun _ => (0, 0) }

/-! ## Linear-probe hash table (`container/hash/linear_probe_hash_table.cpp`)

The table is modelled by the header's `size` (`num_buckets`) together with
the sequence of block pages reachable through `block_page_ids`; the
composite `GetBlockPageId idx` + `FetchPage` is `blocks[idx]?`, with `none`
for an `INVALID_PAGE_ID` / absent entry. Each scanning `while` loop is
written with its remaining iteration count `gas = BLOCK_ARRAY_SIZE - iter`
as the structural argument (the loop guard `iter < BLOCK_ARRAY_SIZE` is
exactly `gas > 0`, since every loop starts at `iter < BLOCK_ARRAY_SIZE`). -/

structure LinearProbeHashTable where
  num_buckets : Nat
  blocks : List HashTableBlockPage

/-- The scan loop of `GetValue`: every readable slot from `iter` to the end
of the block whose key matches contributes its value. -/
def getLoop (b : HashTableBlockPage) (k : Int) : Nat → Nat → List Int
  | 0, _iter => []
  | gas + 1, iter =>
    (if b.IsReadable iter && (b.KeyAt iter == k) then [b.ValueAt iter] else [])
      ++ getLoop b k gas (iter + 1)

/-- The probe loop of `Insert`. After a successful `bucket->Insert` the
source re-checks the (just-written, hence matching) slot and breaks either
way with `ins_suc = true`, so the net effect is `(true, mutated block)`;
on an occupied slot it breaks with `false` exactly when the slot is live
with the identical pair. -/
def insertLoop (k v : Int) : Nat → HashTableBlockPage → Nat →
    Bool × HashTableBlockPage
  | 0, b, _iter => (false, b)
  | gas + 1, b, iter =>
    let r := b.Insert iter k v
    if r.1 then (true, r.2)
    else if b.IsReadable iter && (b.KeyAt iter == k) && (b.ValueAt iter == v) then
      (false, b)
    else insertLoop k v gas b (iter + 1)

/-- The probe loop of `Remove`: first live slot matching both key and value
gets its readable bit cleared; returns the final `offset` (the found index,
or `BLOCK_ARRAY_SIZE` after an exhausted scan) and the block. -/
def removeLoop (k v : Int) : Nat → HashTableBlockPage → Nat →
    Nat × HashTableBlockPage
  | 0, b, offset => (offset, b)
  | gas + 1, b, offset =>
    if b.IsReadable offset && (b.KeyAt offset == k) && (b.ValueAt offset == v) then
      (offset, b.Remove offset)
    else removeLoop k v gas b (offset + 1)

/-- The `while(header->NumBlocks() <= idx)` loop of `Insert`: append
zero-filled new block pages until entry `idx` exists. -/
def growBlocks (blocks : List HashTableBlockPage) (idx : Nat) :
    List HashTableBlockPage :=
  blocks ++ List.replicate (idx + 1 - blocks.length) emptyBlockPage

/-- `LinearProbeHashTable::GetValue` (the external hash value is a
parameter): `idx = hash % num_buckets` selects the block,
`offset = hash % BLOCK_ARRAY_SIZE` the probe start. -/
def LinearProbeHashTable.GetValue (t : LinearProbeHashTable) (k : Int)
    (hashVal : Nat) : Bool × List Int :=
  let idx := hashVal % t.num_buckets
  let offset := hashVal % BLOCK_ARRAY_SIZE
  match t.blocks[idx]? with
  | none => (false, [])
  | some bucket =>
      let res := getLoop bucket k (BLOCK_ARRAY_SIZE - offset) offset
      (!res.isEmpty, res)

/-- `LinearProbeHashTable::Insert`. -/
def LinearProbeHashTable.Insert (t : LinearProbeHashTable) (k v : Int)
    (hashVal : Nat) : Bool × LinearProbeHashTable :=
  let idx := hashVal % t.num_buckets
  let offset := hashVal % BLOCK_ARRAY_SIZE
  let bs := growBlocks t.blocks idx
  match bs[idx]? with
  | none => (false, { t with blocks := bs })
  | some bucket =>
      let r := insertLoop k v (BLOCK_ARRAY_SIZE - offset) bucket offset
      (r.1, { t with blocks := bs.set idx r.2 })

/-- `LinearProbeHashTable::Remove`: returns `offset < BLOCK_ARRAY_SIZE`. -/
def LinearProbeHashTable.Remove (t : LinearProbeHashTable) (k v : Int)
    (hashVal : Nat) : Bool × LinearProbeHashTable :=
  let idx := hashVal % t.num_buckets
  let offset := hashVal % BLOCK_ARRAY_SIZE
  match t.blocks[idx]? with
  | none => (false, t)
  | some bucket =>
      let r := removeLoop k v (BLOCK_ARRAY_SIZE - offset) bucket offset
      (decide (r.1 < BLOCK_ARRAY_SIZE), { t with blocks := t.blocks.set idx r.2 })

/-- `LinearProbeHashTable::GetSize`: the number of block pages. -/
def LinearProbeHashTable.GetSize (t : LinearProbeHashTable) : Nat :=
  t.blocks.length

/-! ## Pin/unpin pairing of the hash-table operations -/

/-- A call into the buffer pool manager, as issued by a hash-table
operation. -/
inductive BpmCall where
  | fetch : Int → BpmCall
  | unpin : Int → BpmCall
deriving DecidableEq

def isFetch : BpmCall → Bool
  | .fetch _ => true
  | .unpin _ => false

def isUnpin : BpmCall → Bool
  | .unpin _ => true
  | .fetch _ => false

/-- The page-id level of a table: header page id, the header's
`block_page_ids` and `size`. -/
structure TablePageIds where
  header_page_id : Int
  block_page_ids : List Int
  num_buckets : Nat

/-- Modelled from the spec: `HashTableHeaderPage::GetBlockPageId` (the
header page's implementation file is not among the sources). Per the spec
the header stores an ordered sequence of block page ids whose non-sentinel
entries refer to allocated block pages; an absent entry reads as the
sentinel `INVALID_PAGE_ID`. -/
def TablePageIds.GetBlockPageId (t : TablePageIds) (idx : Nat) : Int :=
  t.block_page_ids.getD idx INVALID_PAGE_ID

/-- The `FetchPage`/`UnpinPage` calls issued by `Remove`, in order: fetch
header, fetch bucket (unconditionally, before the `INVALID_PAGE_ID` test),
then — only when `bucket_id != INVALID_PAGE_ID` — unpin bucket and header.
The early-return path issues no unpins at all. -/
def removePinTrace (t : TablePageIds) (hashVal : Nat) : List BpmCall :=
  let idx := hashVal % t.num_buckets
  let bucket_id := t.GetBlockPageId idx
  [BpmCall.fetch t.header_page_id, BpmCall.fetch bucket_id] ++
    (if bucket_id = INVALID_PAGE_ID then []
     else [BpmCall.unpin bucket_id, BpmCall.unpin t.header_page_id])

/-- The `FetchPage`/`UnpinPage` calls issued by `GetValue`, in order: the
bucket is fetched only under the `bucket_id != INVALID_PAGE_ID` test and
unpinned inside it; the header is always unpinned. -/
def getValuePinTrace (t : TablePageIds) (hashVal : Nat) : List BpmCall :=
  let idx := hashVal % t.num_buckets
  let bucket_id := t.GetBlockPageId idx
  [BpmCall.fetch t.header_page_id] ++
    (if bucket_id = INVALID_PAGE_ID then []
     else [BpmCall.fetch bucket_id, BpmCall.unpin bucket_id]) ++
    [BpmCall.unpin t.header_page_id]

/-- Concrete blocks and tables used as witnesses below. -/
def bC2 : HashTableBlockPage :=
  { occupied_ := fun i => i == 494, readable_ := fun i => i == 494,
    array_ := fun i => if i = 494 then (3, 9) else (0, 0) }

def tC2 : LinearProbeHashTable := { num_buckets := 1, blocks := [bC2] }

def bC6 : HashTableBlockPage :=
  { occupied_ := fun i => i == 494 || i == 495,
    readable_ := fun i => i == 494 || i == 495,
    array_ := fun i => if i = 494 then (1, 5) else if i = 495 then (1, 7) else (0, 0) }

def tC6 : LinearProbeHashTable := { num_buckets := 1, blocks := [bC6] }

def bC10 : HashTableBlockPage :=
  { occupied_ := fun i => i == 495, readable_ := fun i => i == 495,
    array_ := fun i => if i = 495 then (1, 7) else (0, 0) }

def tC10 : LinearProbeHashTable := { num_buckets := 1, blocks := [bC10] }

/-! ## Buffer pool manager (`buffer/buffer_pool_manager.cpp`)

A frame holds abstract page bytes (`data_ : Int`); the disk manager is a
map from page id to page bytes (`DeallocatePage` has no observable effect
on reads and is not tracked). The page table is a map
`page_id → Option frame_id`; latches are irrelevant to the sequential
state transformer. -/

structure Page where
  page_id_ : Int
  pin_count_ : Int
  is_dirty_ : Bool
  data_ : Int

structure BufferPoolManager where
  pool_size_ : Nat
  pages_ : Nat → Page
  page_table_ : Int → Option Nat
  free_list_ : List Nat
  replacer_ : ClockReplacer
  disk_ : Int → Int

/-- Point update of the frame array. -/
def setFrame (pages : Nat → Page) (f : Nat) (fr : Page) : Nat → Page :=
  fun g => if g = f then fr else pages g

/-- The `BufferPoolManager` constructor: empty frames, empty page table,
every frame on the free list, fresh replacer. -/
def mkBufferPoolManager (pool_size : Nat) (disk : Int → Int) :
    BufferPoolManager :=
  { pool_size_ := pool_size,
    pages_ := fun _ =>
      { page_id_ := INVALID_PAGE_ID, pin_count_ := 0, is_dirty_ := false,
        data_ := 0 },
    page_table_ := fun _ => none,
    free_list_ := List.range pool_size,
    replacer_ := mkClockReplacer pool_size,
    disk_ := disk }

/-- `BufferPoolManager::FlushPageImpl`: absent → `false`; clean → `true`;
dirty → write through the disk manager and clear the dirty bit. -/
def FlushPageImpl (m : BufferPoolManager) (page_id : Int) :
    Bool × BufferPoolManager :=
  match m.page_table_ page_id with
  | none => (false, m)
  | some frame =>
    if (m.pages_ frame).is_dirty_ = false then (true, m)
    else
      (true,
       { m with
         disk_ := fun q => if q = page_id then (m.pages_ frame).data_
                           else m.disk_ q,
         pages_ := setFrame m.pages_ frame
           { m.pages_ frame with is_dirty_ := false } })

/-- `BufferPoolManager::FetchPageImpl`: page-table hit pins and returns;
otherwise take the free-list front, else a replacer victim (flushing it
first when dirty); install the new mapping and read from disk. Returns the
frame index (`Page*`) or `none`. -/
def FetchPageImpl (m : BufferPoolManager) (page_id : Int) :
    Option Nat × BufferPoolManager :=
  match m.page_table_ page_id with
  | some target =>
      (some target,
       { m with replacer_ := m.replacer_.Pin target,
                pages_ := setFrame m.pages_ target
                  { m.pages_ target with
                    pin_count_ := (m.pages_ target).pin_count_ + 1 } })
  | none =>
    match m.free_list_ with
    | target :: rest =>
        (some target,
         { m with
           free_list_ := rest,
           replacer_ := m.replacer_.Pin target,
           pages_ := setFrame m.pages_ target
             { page_id_ := page_id,
               pin_count_ := (m.pages_ target).pin_count_ + 1,
               is_dirty_ := false, data_ := m.disk_ page_id },
           page_table_ := fun q => if q = page_id then some target
                                   else m.page_table_ q })
    | [] =>
      match m.replacer_.Victim with
      | (none, rep) => (none, { m with replacer_ := rep })
      | (some target, rep) =>
          let m1 : BufferPoolManager := { m with replacer_ := rep }
          let evict_page := (m1.pages_ target).page_id_
          let step :=
            if (m1.pages_ target).is_dirty_ then FlushPageImpl m1 evict_page
            else (true, m1)
          if step.1 = false then (none, step.2)
          else
            let m2 := step.2
            (some target,
             { m2 with
               replacer_ := m2.replacer_.Pin target,
               pages_ := setFrame m2.pages_ target
                 { page_id_ := page_id,
                   pin_count_ := (m2.pages_ target).pin_count_ + 1,
                   is_dirty_ := false, data_ := m2.disk_ page_id },
               page_table_ := fun q =>
                 if q = page_id then some target
                 else if q = evict_page then none
                 else m2.page_table_ q })

/-- `BufferPoolManager::UnpinPageImpl`: absent → `true`; non-positive pin
count → `false`; else decrement, accumulate the dirty bit, and hand the
frame to the replacer when the pin count reaches zero. -/
def UnpinPageImpl (m : BufferPoolManager) (page_id : Int) (is_dirty : Bool) :
    Bool × BufferPoolManager :=
  match m.page_table_ page_id with
  | none => (true, m)
  | some frame =>
    if (m.pages_ frame).pin_count_ ≤ 0 then (false, m)
    else
      let fr : Page :=
        { m.pages_ frame with
          pin_count_ := (m.pages_ frame).pin_count_ - 1,
          is_dirty_ := (m.pages_ frame).is_dirty_ || is_dirty }
      let m1 : BufferPoolManager := { m with pages_ := setFrame m.pages_ frame fr }
      if fr.pin_count_ = 0 then
        (true, { m1 with replacer_ := m1.replacer_.Unpin frame })
      else (true, m1)

/-- `BufferPoolManager::DeletePageImpl`: invalid or absent id → `true`;
pinned → `false`; else deallocate, drop the mapping, reset the frame's
metadata and push the frame on the back of the free list. The source never
touches `replacer_` here. -/
def DeletePageImpl (m : BufferPoolManager) (page_id : Int) :
    Bool × BufferPoolManager :=
  if page_id = INVALID_PAGE_ID then (true, m)
  else
    match m.page_table_ page_id with
    | none => (true, m)
    | some target =>
      if (m.pages_ target).pin_count_ ≠ 0 then (false, m)
      else
        (true,
         { m with
           page_table_ := fun q => if q = page_id then none
                                   else m.page_table_ q,
           pages_ := setFrame m.pages_ target
             { m.pages_ target with page_id_ := INVALID_PAGE_ID,
                                    is_dirty_ := false },
           free_list_ := m.free_list_ ++ [target] })

/-- The sequence `FetchPage(p)` then `UnpinPage(p, false)` of spec
invariant 4. -/
def fetchThenUnpin (m : BufferPoolManager) (p : Int) : Bool × BufferPoolManager :=
  UnpinPageImpl (FetchPageImpl m p).2 p false

/-- The all-zero disk image. -/
def dZero : Int → Int := fun _ => 0

/-- Pool of size 1 after `FetchPage(5)`; `UnpinPage(5, false)`: frame 0
holds page 5 with pin count 0 and sits in the replacer. -/
def mC1 : BufferPoolManager :=
  (UnpinPageImpl (FetchPageImpl (mkBufferPoolManager 1 dZero) 5).2 5 false).2

/-- Pool of size 2 after `FetchPage(7)`, `FetchPage(8)`, `UnpinPage(7)`,
`UnpinPage(8)`, `FetchPage(9)`: the last fetch evicts frame 0 through the
replacer, whose sweep cleared frame 1's ref bit; frame 1 still holds
page 8, unpinned, with `in_f 1 = true` and `ref_f 1 = false`. -/
def mC8 : BufferPoolManager :=
  (FetchPageImpl
    (UnpinPageImpl
      (UnpinPageImpl
        (FetchPageImpl (FetchPageImpl (mkBufferPoolManager 2 dZero) 7).2 8).2
        7 false).2
      8 false).2
    9).2

/-! ## Theorems -/

/-- Two distinct sweep steps of one sweep visit distinct positions. -/
theorem sweep_index_ne (size hand i j : Nat) (hij : i < j) (hj : j < size) :
    (hand + i) % size ≠ (hand + j) % size := by
  intro heq
  have h1 : i ≡ j [MOD size] :=
    Nat.ModEq.add_left_cancel' hand (heq : (hand + i) % size = (hand + j) % size)
  have h2 : size ∣ j - i := (Nat.modEq_iff_dvd' (le_of_lt hij)).mp h1
  have h3 : size ≤ j - i := Nat.le_of_dvd (by omega) h2
  omega

/-- Every frame below `size` is visited by some step of a full sweep. -/
theorem sweep_covers (size hand f : Nat) (hf : f < size) :
    ∃ i, i < size ∧ (hand + i) % size = f := by
  have hsz : 0 < size := lt_of_le_of_lt (Nat.zero_le f) hf
  have ha : hand % size < size := Nat.mod_lt _ hsz
  refine ⟨(size + f - hand % size) % size, Nat.mod_lt _ hsz, ?_⟩
  have h1 : (hand + (size + f - hand % size) % size) % size
      = (hand + (size + f - hand % size)) % size :=
    Nat.ModEq.add_left hand (Nat.mod_modEq _ size)
  have hdm : size * (hand / size) + hand % size = hand := Nat.div_add_mod hand size
  have h2 : hand + (size + f - hand % size) = f + size * (hand / size) + size := by
    omega
  rw [h1, h2, Nat.add_mod_right, Nat.add_mul_mod_self_left, Nat.mod_eq_of_lt hf]

/-- `Size` is positive exactly when some in-range frame is in the replacer. -/
theorem size_pos_iff (r : ClockReplacer) :
    0 < r.Size ↔ ∃ f, f < r.buffer_size ∧ r.in_f f = true := by
  unfold ClockReplacer.Size
  rw [List.length_pos_iff_exists_mem]
  constructor
  · rintro ⟨x, hx⟩
    rw [List.mem_filter] at hx
    exact ⟨x, List.mem_range.mp hx.1, hx.2⟩
  · rintro ⟨f, hf, hin⟩
    exact ⟨f, List.mem_filter.mpr ⟨List.mem_range.mpr hf, hin⟩⟩

/-- If no in-range frame is in the replacer, the sweep is a pure skip. -/
theorem victimLoop_empty (size hand : Nat) (inf : Nat → Bool) (hsz : 0 < size)
    (hempty : ∀ f, f < size → inf f = false) :
    ∀ gas ref candi i, victimLoop size hand inf gas ref candi i = (none, ref, candi) := by
  intro gas
  induction gas with
  | zero => intro ref candi i; rfl
  | succ g ih =>
    intro ref candi i
    have hidx : inf ((hand + i) % size) = false := hempty _ (Nat.mod_lt _ hsz)
    simp only [victimLoop, hidx, Bool.false_and, Bool.false_eq_true, if_false]
    exact ih ref candi (i + 1)

/-- If the fallback is already set, or some remaining sweep step visits an
in-replacer frame, the sweep ends with a break or a set fallback. -/
theorem victimLoop_isSome (size hand : Nat) (inf : Nat → Bool) :
    ∀ gas ref candi i,
      (candi.isSome = true ∨
        ∃ j, i ≤ j ∧ j < i + gas ∧ inf ((hand + j) % size) = true) →
      ((victimLoop size hand inf gas ref candi i).1.isSome = true ∨
       (victimLoop size hand inf gas ref candi i).2.2.isSome = true) := by
  intro gas
  induction gas with
  | zero =>
    intro ref candi i h
    rcases h with h | ⟨j, hj1, hj2, _⟩
    · right; simpa [victimLoop] using h
    · omega
  | succ g ih =>
    intro ref candi i h
    by_cases h1 : (inf ((hand + i) % size) && !ref ((hand + i) % size)) = true
    · left; simp [victimLoop, h1]
    · by_cases h2 : (inf ((hand + i) % size) && ref ((hand + i) % size)) = true
      · rcases candi with _ | c
        · have hrec := ih (fun j => if j = (hand + i) % size then false else ref j)
            (some ((hand + i) % size)) (i + 1) (Or.inl rfl)
          simpa [victimLoop, h1, h2] using hrec
        · have hrec := ih (fun j => if j = (hand + i) % size then false else ref j)
            (some c) (i + 1) (Or.inl rfl)
          simpa [victimLoop, h1, h2] using hrec
      · have hinf : inf ((hand + i) % size) = false := by
          rcases hb : inf ((hand + i) % size)
          · rfl
          · exfalso
            rcases hr : ref ((hand + i) % size)
            · exact h1 (by simp [hb, hr])
            · exact h2 (by simp [hb, hr])
        have hnext : candi.isSome = true ∨
            ∃ j, i + 1 ≤ j ∧ j < i + 1 + g ∧ inf ((hand + j) % size) = true := by
          rcases h with h | ⟨j, hj1, hj2, hj3⟩
          · exact Or.inl h
          · refine Or.inr ⟨j, ?_, by omega, hj3⟩
            rcases Nat.eq_or_lt_of_le hj1 with rfl | h'
            · rw [hj3] at hinf; cases hinf
            · omega
        have hrec := ih ref candi (i + 1) hnext
        simpa [victimLoop, hinf] using hrec

/-- If every in-replacer frame visited by the remaining sweep steps has its
ref bit set, the sweep never breaks: it clears those ref bits and ends with
the fallback equal to the first in-replacer position encountered. -/
theorem victimLoop_allref (size hand : Nat) (inf : Nat → Bool) :
    ∀ gas i ref candi, i + gas ≤ size →
      (∀ j, i ≤ j → j < i + gas → inf ((hand + j) % size) = true →
        ref ((hand + j) % size) = true) →
      (victimLoop size hand inf gas ref candi i).1 = none ∧
      (victimLoop size hand inf gas ref candi i).2.2 =
        (match candi with
         | none => firstFrom size hand inf gas i
         | some c => some c) := by
  intro gas
  induction gas with
  | zero =>
    intro i ref candi _ _
    rcases candi <;> simp [victimLoop, firstFrom]
  | succ g ih =>
    intro i ref candi hle hall
    by_cases hinf : inf ((hand + i) % size) = true
    · have href : ref ((hand + i) % size) = true := hall i le_rfl (by omega) hinf
      have hpres : ∀ j, i + 1 ≤ j → j < i + 1 + g →
          inf ((hand + j) % size) = true →
          (fun jj => if jj = (hand + i) % size then false else ref jj)
            ((hand + j) % size) = true := by
        intro j hj1 hj2 hj
        have hne : (hand + j) % size ≠ (hand + i) % size :=
          (sweep_index_ne size hand i j (by omega) (by omega)).symm
        simp only [hne, if_false]
        exact hall j (by omega) (by omega) hj
      rcases candi with _ | c
      · have hrec := ih (i + 1)
          (fun jj => if jj = (hand + i) % size then false else ref jj)
          (some ((hand + i) % size)) (by omega) hpres
        simp only [victimLoop, hinf, href, Bool.not_true, Bool.and_false,
          Bool.and_true, Bool.true_and, Bool.false_eq_true, if_false, if_true,
          firstFrom]
        exact hrec
      · have hrec := ih (i + 1)
          (fun jj => if jj = (hand + i) % size then false else ref jj)
          (some c) (by omega) hpres
        simp only [victimLoop, hinf, href, Bool.not_true, Bool.and_false,
          Bool.and_true, Bool.true_and, Bool.false_eq_true, if_false, if_true]
        exact hrec
    · have hinf' : inf ((hand + i) % size) = false := by
        rcases hb : inf ((hand + i) % size)
        · rfl
        · exact absurd hb hinf
      have hrec := ih (i + 1) ref candi (by omega)
        (fun j hj1 hj2 hj => hall j (by omega) (by omega) hj)
      rcases candi with _ | c
      · simp only [victimLoop, hinf', Bool.false_and, Bool.false_eq_true,
          if_false, firstFrom]
        exact hrec
      · simp only [victimLoop, hinf', Bool.false_and, Bool.false_eq_true,
          if_false]
        exact hrec

/-- C5: `Victim` succeeds exactly when `Size() > 0`; and when every
in-replacer frame of the sweep has its ref bit set (the fallback path), the
frame returned is the first in-replacer position in sweep order from
`clock_hand`, and its `in_replacer` bit is cleared. -/
theorem clock_victim_complete (r : ClockReplacer) :
    ((r.Victim).1 ≠ none ↔ 0 < r.Size) ∧
    ((∀ i, i < r.buffer_size →
        r.in_f ((r.clock_hand + i) % r.buffer_size) = true →
        r.ref_f ((r.clock_hand + i) % r.buffer_size) = true) →
      ∀ c, firstFrom r.buffer_size r.clock_hand r.in_f r.buffer_size 0 = some c →
        (r.Victim).1 = some c ∧ (r.Victim).2.in_f c = false) := by
  constructor
  · rw [size_pos_iff]
    constructor
    · intro h
      by_contra hne
      push_neg at hne
      rcases Nat.eq_zero_or_pos r.buffer_size with hz | hpos
      · exact h (by simp [ClockReplacer.Victim, hz, victimLoop])
      · have hemp : ∀ f, f < r.buffer_size → r.in_f f = false := by
          intro f hf
          rcases hb : r.in_f f
          · rfl
          · exact absurd hb (hne f hf)
        have hloop := victimLoop_empty r.buffer_size r.clock_hand r.in_f hpos hemp
          r.buffer_size r.ref_f none 0
        exact h (by simp [ClockReplacer.Victim, hloop])
    · rintro ⟨f, hf, hin⟩
      obtain ⟨i, hi, hidx⟩ := sweep_covers r.buffer_size r.clock_hand f hf
      have h4 := victimLoop_isSome r.buffer_size r.clock_hand r.in_f
        r.buffer_size r.ref_f none 0
        (Or.inr ⟨i, Nat.zero_le _, by omega, by rw [hidx]; exact hin⟩)
      unfold ClockReplacer.Victim
      rcases hv : victimLoop r.buffer_size r.clock_hand r.in_f r.buffer_size
          r.ref_f none 0 with ⟨o1, ref1, o2⟩
      rw [hv] at h4
      rcases o1 with _ | x
      · rcases o2 with _ | c
        · simp at h4
        · simp
      · simp
  · intro hall c hc
    have h5 := victimLoop_allref r.buffer_size r.clock_hand r.in_f
      r.buffer_size 0 r.ref_f none (by omega)
      (fun j _ h2 h3 => hall j (by omega) h3)
    unfold ClockReplacer.Victim
    rcases hv : victimLoop r.buffer_size r.clock_hand r.in_f r.buffer_size
        r.ref_f none 0 with ⟨o1, ref1, o2⟩
    rw [hv] at h5
    obtain ⟨h51, h52⟩ := h5
    simp only at h51 h52
    subst h51
    rw [h52, hc]
    simp

/-- C5 witness: on a capacity-2 replacer with both frames unpinned (both
ref bits set, the fallback path), `Victim` exists iff `Size() > 0`, returns
frame 0 (the first sweep position), and clears its `in_replacer` bit. -/
theorem clock_victim_complete_witness :
    ((rC5.Victim).1 ≠ none ↔ 0 < rC5.Size) ∧
    (rC5.Victim).1 = some 0 ∧ (rC5.Victim).2.in_f 0 = false :=
  ⟨(clock_victim_complete rC5).1,
   (clock_victim_complete rC5).2 (by decide) 0 (by decide)⟩

/-- C4 counterexample: in scenario S4 the first `Victim` does NOT return
frame 1; it returns frame 0 (all three frames carry a set ref bit, so the
sweep clears every ref bit and falls back to the first remembered
position, which is frame 0). -/
theorem s4_first_victim_not_one :
    (rS4.Victim).1 = some 0 ∧ (rS4.Victim).1 ≠ some 1 := by
  decide

/-- C4 amended: in scenario S4 the sweep of the first `Victim` clears the
ref bits of frames 0, 1 and 2, falls back to the first remembered position
and returns frame 0, clearing its `in_replacer` bit and leaving the hand
at 1; frames 1 and 2 stay in the replacer. -/
theorem s4_first_victim_returns_zero :
    (rS4.Victim).1 = some 0 ∧
    (rS4.Victim).2.ref_f 0 = false ∧
    (rS4.Victim).2.ref_f 1 = false ∧
    (rS4.Victim).2.ref_f 2 = false ∧
    (rS4.Victim).2.in_f 0 = false ∧
    (rS4.Victim).2.in_f 1 = true ∧
    (rS4.Victim).2.in_f 2 = true ∧
    (rS4.Victim).2.clock_hand = 1 := by
  decide

/-- C9: the out-of-range guard of `Pin`/`Unpin` misses negative frame ids:
on a capacity-3 replacer, `Pin(-1)` and `Unpin(-1)` reach the bit-vector
access at index -1 (out of bounds, undefined behaviour, modelled `none`)
instead of being ignored, while ids `≥ capacity` are correctly ignored. -/
theorem replacer_negative_id_out_of_bounds :
    (mkClockReplacer 3).PinSigned (-1) = none ∧
    (mkClockReplacer 3).UnpinSigned (-1) = none ∧
    (mkClockReplacer 3).PinSigned 3 = some (mkClockReplacer 3) ∧
    (mkClockReplacer 3).UnpinSigned 5 = some (mkClockReplacer 3) := by
  refine ⟨rfl, rfl, rfl, rfl⟩

/-- C3: on the `bucket_id == INVALID_PAGE_ID` path (absent header entry,
e.g. a fresh table), `Remove` issues two successful fetches — the header
and the INVALID bucket — and early-returns with zero unpins, violating the
one-unpin-per-fetch pairing. -/
theorem remove_pin_leak :
    removePinTrace
        { header_page_id := 0, block_page_ids := [], num_buckets := 4 } 1 =
      [BpmCall.fetch 0, BpmCall.fetch (-1)] ∧
    ((removePinTrace
        { header_page_id := 0, block_page_ids := [], num_buckets := 4 } 1).filter
      isFetch).length = 2 ∧
    ((removePinTrace
        { header_page_id := 0, block_page_ids := [], num_buckets := 4 } 1).filter
      isUnpin).length = 0 := by
  decide

/-- `GetValue`, by contrast, balances fetches and unpins on every path. -/
theorem getvalue_pins_balanced (t : TablePageIds) (hashVal : Nat) :
    ((getValuePinTrace t hashVal).filter isFetch).length =
      ((getValuePinTrace t hashVal).filter isUnpin).length := by
  unfold getValuePinTrace
  by_cases h : t.GetBlockPageId (hashVal % t.num_buckets) = INVALID_PAGE_ID <;>
    simp [h, isFetch, isUnpin]

/-- C7: on a block page, `readable ⇒ occupied` holds on the zero-filled
page and is preserved by `Insert` (at an in-range slot) and by `Remove`;
and the occupied bit is monotone: neither operation ever clears it. -/
theorem block_bitmap_invariant (b : HashTableBlockPage) (i : Nat) (k v : Int)
    (_hi : i < BLOCK_ARRAY_SIZE)
    (hinv : ∀ j, b.IsReadable j = true → b.IsOccupied j = true) :
    (∀ j, emptyBlockPage.IsReadable j = true →
      emptyBlockPage.IsOccupied j = true) ∧
    (∀ j, (b.Insert i k v).2.IsReadable j = true →
      (b.Insert i k v).2.IsOccupied j = true) ∧
    (∀ j, (b.Remove i).IsReadable j = true →
      (b.Remove i).IsOccupied j = true) ∧
    (∀ j, b.IsOccupied j = true → (b.Insert i k v).2.IsOccupied j = true) ∧
    (∀ j, b.IsOccupied j = true → (b.Remove i).IsOccupied j = true) := by
  refine ⟨?_, ?_, ?_, ?_, ?_⟩
  · intro j h
    simp [HashTableBlockPage.IsReadable, emptyBlockPage] at h
  · intro j h
    unfold HashTableBlockPage.Insert at h ⊢
    by_cases ho : b.IsOccupied i = true
    · simp only [ho, if_true] at h ⊢
      exact hinv j h
    · simp only [ho, if_false, Bool.false_eq_true] at h ⊢
      simp only [HashTableBlockPage.IsReadable, HashTableBlockPage.IsOccupied] at h ⊢
      by_cases hg : BITMAP_BYTES ≤ j / 8
      · simp [hg] at h
      · simp only [hg, if_false] at h ⊢
        by_cases hj : j = i
        · simp [hj]
        · simp only [hj, if_false] at h ⊢
          have := hinv j
          simp only [HashTableBlockPage.IsReadable, HashTableBlockPage.IsOccupied] at this
          simp only [hg, if_false] at this
          exact this h
  · intro j h
    unfold HashTableBlockPage.Remove at h ⊢
    by_cases hgi : BITMAP_BYTES ≤ i / 8
    · simp only [hgi, if_true] at h ⊢
      exact hinv j h
    · simp only [hgi, if_false] at h ⊢
      simp only [HashTableBlockPage.IsReadable, HashTableBlockPage.IsOccupied] at h ⊢
      by_cases hg : BITMAP_BYTES ≤ j / 8
      · simp [hg] at h
      · simp only [hg, if_false] at h ⊢
        by_cases hj : j = i
        · simp [hj] at h
        · simp only [hj, if_false] at h
          have := hinv j
          simp only [HashTableBlockPage.IsReadable, HashTableBlockPage.IsOccupied] at this
          simp only [hg, if_false] at this
          exact this h
  · intro j h
    unfold HashTableBlockPage.Insert
    by_cases ho : b.IsOccupied i = true
    · simp only [ho, if_true]
      exact h
    · simp only [ho, if_false, Bool.false_eq_true]
      simp only [HashTableBlockPage.IsOccupied] at h ⊢
      by_cases hg : BITMAP_BYTES ≤ j / 8
      · simp [hg] at h
      · simp only [hg, if_false] at h ⊢
        by_cases hj : j = i
        · simp [hj]
        · simp only [hj, if_false]
          exact h
  · intro j h
    unfold HashTableBlockPage.Remove
    by_cases hgi : BITMAP_BYTES ≤ i / 8
    · simp only [hgi, if_true]
      exact h
    · simp only [hgi, if_false]
      exact h

/-- C7 witness: inserting into slot 0 of the zero-filled page yields a
readable slot that is also occupied. -/
theorem block_bitmap_invariant_witness :
    (emptyBlockPage.Insert 0 1 2).2.IsOccupied 0 = true :=
  (block_bitmap_invariant emptyBlockPage 0 1 2 (by decide)
      (fun j h => by simp [HashTableBlockPage.IsReadable, emptyBlockPage] at h)).2.1
    0 (by decide)

/-- The `GetValue` scan loop enumerates, in index order, the values of all
readable matching slots of the scanned range — it never stops early. -/
theorem getLoop_eq (b : HashTableBlockPage) (k : Int) :
    ∀ gas iter, getLoop b k gas iter =
      ((List.range' iter gas).filter
        (fun j => b.IsReadable j && (b.KeyAt j == k))).map (fun j => b.ValueAt j) := by
  intro gas
  induction gas with
  | zero => intro iter; simp [getLoop]
  | succ g ih =>
    intro iter
    rw [List.range'_succ, List.filter_cons]
    by_cases h : (b.IsReadable iter && (b.KeyAt iter == k)) = true
    · simp [getLoop, h, ih]
    · simp [getLoop, h, ih]

/-- Membership form of `getLoop_eq`. -/
theorem getLoop_mem (b : HashTableBlockPage) (k : Int) (j iter gas : Nat)
    (h1 : iter ≤ j) (h2 : j < iter + gas)
    (hr : b.IsReadable j = true) (hk : b.KeyAt j = k) :
    b.ValueAt j ∈ getLoop b k gas iter := by
  rw [getLoop_eq]
  refine List.mem_map.mpr ⟨j, List.mem_filter.mpr ⟨?_, by simp [hr, hk]⟩, rfl⟩
  exact List.mem_range'_1.mpr ⟨h1, h2⟩

/-- C10: when the bucket page selected by `hash(k)` exists, `GetValue`
returns exactly the values of all live matching slots from
`offset = hash % BLOCK_ARRAY_SIZE` to the end of the block; in particular a
live matching slot is returned even when a never-occupied slot precedes it
in the scanned range. -/
theorem getvalue_scans_entire_tail (t : LinearProbeHashTable) (k : Int)
    (hashVal : Nat) (b : HashTableBlockPage)
    (hb : t.blocks[hashVal % t.num_buckets]? = some b) :
    (t.GetValue k hashVal).2 =
      ((List.range' (hashVal % BLOCK_ARRAY_SIZE)
          (BLOCK_ARRAY_SIZE - hashVal % BLOCK_ARRAY_SIZE)).filter
        (fun j => b.IsReadable j && (b.KeyAt j == k))).map (fun j => b.ValueAt j) ∧
    (∀ j, hashVal % BLOCK_ARRAY_SIZE ≤ j → j < BLOCK_ARRAY_SIZE →
      b.IsReadable j = true → b.KeyAt j = k →
      b.ValueAt j ∈ (t.GetValue k hashVal).2) := by
  have h1 : (t.GetValue k hashVal).2 =
      getLoop b k (BLOCK_ARRAY_SIZE - hashVal % BLOCK_ARRAY_SIZE)
        (hashVal % BLOCK_ARRAY_SIZE) := by
    simp [LinearProbeHashTable.GetValue, hb]
  constructor
  · rw [h1, getLoop_eq]
  · intro j hj1 hj2 hr hk
    rw [h1]
    have hoff : hashVal % BLOCK_ARRAY_SIZE < BLOCK_ARRAY_SIZE :=
      Nat.mod_lt _ (by decide)
    exact getLoop_mem b k j _ _ hj1 (by omega) hr hk

/-- C10 witness: in `tC10`, slot 494 (the probe start) is never-occupied
while slot 495 holds the live pair `(1, 7)`; `GetValue` still returns 7. -/
theorem getvalue_scans_entire_tail_witness :
    (7 : Int) ∈ (tC10.GetValue 1 494).2 :=
  (getvalue_scans_entire_tail tC10 1 494 bC10 rfl).2 495
    (by decide) (by decide) (by decide) (by decide)

/-- Setting a list entry to the value it already holds is the identity. -/
theorem list_set_self {α : Type} : ∀ (l : List α) (i : Nat) (a : α),
    l[i]? = some a → l.set i a = l
  | [], i, a, h => by simp at h
  | x :: tl, 0, a, h => by
      simp only [List.getElem?_cons_zero, Option.some.injEq] at h
      simp [h]
  | x :: tl, i + 1, a, h => by
      simp only [List.getElem?_cons_succ] at h
      simp [list_set_self tl i a h]

/-- Reading back a just-set list entry. -/
theorem list_getElem?_set_self {α : Type} : ∀ (l : List α) (i : Nat) (a : α),
    i < l.length → (l.set i a)[i]? = some a
  | [], i, _, h => by simp at h
  | _ :: _, 0, _, _ => by simp
  | x :: tl, i + 1, a, h => by
      show (x :: tl.set i a)[i + 1]? = some a
      simpa using list_getElem?_set_self tl i a (by simpa using h)

/-- Multiplicity form of `getLoop_eq`: the number of occurrences of `v`
among the returned values is the number of live matching slots carrying
`v` in the scanned range. -/
theorem getLoop_count (b : HashTableBlockPage) (k v : Int) :
    ∀ gas iter, (getLoop b k gas iter).count v =
      ((List.range' iter gas).filter
        (fun j => b.IsReadable j && (b.KeyAt j == k) && (b.ValueAt j == v))).length := by
  intro gas
  induction gas with
  | zero => intro iter; simp [getLoop]
  | succ g ih =>
    intro iter
    have hg : getLoop b k (g + 1) iter =
        (if b.IsReadable iter && (b.KeyAt iter == k) then [b.ValueAt iter] else [])
          ++ getLoop b k g (iter + 1) := rfl
    rw [hg, List.count_append, ih, List.range'_succ, List.filter_cons]
    by_cases h1 : (b.IsReadable iter && (b.KeyAt iter == k)) = true
    · by_cases h2 : (b.ValueAt iter == v) = true
      · simp [h1, h2, beq_iff_eq.mp h2, Nat.add_comm]
      · simp [h1, h2, List.count_cons]
    · simp [h1]

/-- In a duplicate-free list, the sublist satisfying a predicate that holds
exactly at one member has length one. -/
theorem filter_length_one {α : Type} (l : List α) (p : α → Bool) (j : α)
    (hnd : l.Nodup) (hj : j ∈ l) (hp : ∀ x ∈ l, p x = true ↔ x = j) :
    (l.filter p).length = 1 := by
  induction l with
  | nil => cases hj
  | cons a tl ih =>
    have hnd' := List.nodup_cons.mp hnd
    by_cases haj : a = j
    · subst haj
      rw [List.filter_cons_of_pos ((hp a (List.mem_cons_self a tl)).mpr rfl)]
      have hz : tl.filter p = [] := by
        apply List.filter_eq_nil_iff.mpr
        intro x hx hpx
        have hxa : x = a := (hp x (List.mem_cons_of_mem a hx)).mp hpx
        exact hnd'.1 (hxa ▸ hx)
      simp [hz]
    · have ha : ¬ p a = true := by
        intro hpa
        exact haj ((hp a (List.mem_cons_self a tl)).mp hpa)
      have hj' : j ∈ tl := by
        rcases List.mem_cons.mp hj with h | h
        · exact absurd h.symm haj
        · exact h
      rw [List.filter_cons_of_neg ha]
      exact ih hnd'.2 hj' (fun x hx => hp x (List.mem_cons_of_mem a hx))

/-- The `Insert` probe loop rejects a duplicate: if slot `j` holds the live
pair `(k, v)`, every earlier probed slot is occupied, and no other probed
slot holds the live pair `(k, v)`, the loop returns `false` with the block
untouched. -/
theorem insertLoop_reject (b : HashTableBlockPage) (k v : Int) (j : Nat)
    (hinv : ∀ i, b.IsReadable i = true → b.IsOccupied i = true)
    (hlive : b.IsReadable j = true) (hkey : b.KeyAt j = k)
    (hval : b.ValueAt j = v) :
    ∀ gas iter, iter ≤ j → j < iter + gas →
      (∀ i, iter ≤ i → i < j → b.IsOccupied i = true) →
      (∀ i, iter ≤ i → i < iter + gas → b.IsReadable i = true →
        b.KeyAt i = k → b.ValueAt i = v → i = j) →
      insertLoop k v gas b iter = (false, b) := by
  intro gas
  induction gas with
  | zero => intro iter h1 h2 _ _; omega
  | succ g ih =>
    intro iter h1 h2 hocc huniq
    rcases Nat.eq_or_lt_of_le h1 with rfl | hlt
    · have ho : b.IsOccupied iter = true := hinv _ hlive
      simp [insertLoop, HashTableBlockPage.Insert, ho, hlive, hkey, hval]
    · have ho : b.IsOccupied iter = true := hocc iter le_rfl hlt
      by_cases hcond : (b.IsReadable iter && (b.KeyAt iter == k) &&
          (b.ValueAt iter == v)) = true
      · exfalso
        rw [Bool.and_eq_true, Bool.and_eq_true] at hcond
        obtain ⟨⟨hr, hkk⟩, hvv⟩ := hcond
        have := huniq iter le_rfl (by omega) hr (beq_iff_eq.mp hkk)
          (beq_iff_eq.mp hvv)
        omega
      · simp only [insertLoop, HashTableBlockPage.Insert, ho, if_true]
        simp only [hcond, if_false, Bool.false_eq_true]
        exact ih (iter + 1) (by omega) (by omega)
          (fun i hi1 hi2 => hocc i (by omega) hi2)
          (fun i hi1 hi2 h3 h4 h5 => huniq i (by omega) (by omega) h3 h4 h5)

/-- C2: if the pair `(k, v)` is already stored in a live slot of the block
selected by `hash(k)` — necessarily at a probe index `j ≥ offset` with
every earlier probed slot occupied and no second live `(k, v)` slot, the
invariants of every table-reachable placement — then `Insert(k, v)` returns
`false` and leaves the table completely unchanged, and `GetValue(k)` yields
exactly one occurrence of `v`. -/
theorem insert_duplicate_rejected (t : LinearProbeHashTable) (k v : Int)
    (hashVal : Nat) (b : HashTableBlockPage) (j : Nat)
    (hb : t.blocks[hashVal % t.num_buckets]? = some b)
    (hinv : ∀ i, b.IsReadable i = true → b.IsOccupied i = true)
    (hoff : hashVal % BLOCK_ARRAY_SIZE ≤ j) (hj : j < BLOCK_ARRAY_SIZE)
    (hlive : b.IsReadable j = true) (hkey : b.KeyAt j = k)
    (hval : b.ValueAt j = v)
    (hocc : ∀ i, hashVal % BLOCK_ARRAY_SIZE ≤ i → i < j →
      b.IsOccupied i = true)
    (huniq : ∀ i, hashVal % BLOCK_ARRAY_SIZE ≤ i → i < BLOCK_ARRAY_SIZE →
      b.IsReadable i = true → b.KeyAt i = k → b.ValueAt i = v → i = j) :
    t.Insert k v hashVal = (false, t) ∧
    ((t.GetValue k hashVal).2).count v = 1 := by
  have hSZ : (0 : Nat) < BLOCK_ARRAY_SIZE := by decide
  have hofflt : hashVal % BLOCK_ARRAY_SIZE < BLOCK_ARRAY_SIZE := Nat.mod_lt _ hSZ
  have hlen : hashVal % t.num_buckets < t.blocks.length := by
    by_contra hc
    push_neg at hc
    rw [List.getElem?_eq_none hc] at hb
    cases hb
  have hgrow : growBlocks t.blocks (hashVal % t.num_buckets) = t.blocks := by
    unfold growBlocks
    have h0 : hashVal % t.num_buckets + 1 - t.blocks.length = 0 := by omega
    rw [h0]
    simp
  have hloop : insertLoop k v (BLOCK_ARRAY_SIZE - hashVal % BLOCK_ARRAY_SIZE) b
      (hashVal % BLOCK_ARRAY_SIZE) = (false, b) :=
    insertLoop_reject b k v j hinv hlive hkey hval _ _ hoff (by omega) hocc
      (fun i h1 h2 => huniq i h1 (by omega))
  constructor
  · have hIns : t.Insert k v hashVal =
        (false, { t with blocks := t.blocks.set (hashVal % t.num_buckets) b }) := by
      simp [LinearProbeHashTable.Insert, hgrow, hb, hloop]
    rw [hIns, list_set_self _ _ _ hb]
  · have h1 : (t.GetValue k hashVal).2 =
        getLoop b k (BLOCK_ARRAY_SIZE - hashVal % BLOCK_ARRAY_SIZE)
          (hashVal % BLOCK_ARRAY_SIZE) := by
      simp [LinearProbeHashTable.GetValue, hb]
    rw [h1, getLoop_count]
    apply filter_length_one _ _ j (List.nodup_range' _ _)
    · exact List.mem_range'_1.mpr ⟨hoff, by omega⟩
    · intro x hx
      rw [List.mem_range'_1] at hx
      constructor
      · intro hp
        rw [Bool.and_eq_true, Bool.and_eq_true] at hp
        obtain ⟨⟨hr, hkk⟩, hvv⟩ := hp
        exact huniq x hx.1 (by omega) hr (beq_iff_eq.mp hkk) (beq_iff_eq.mp hvv)
      · rintro rfl
        simp [hlive, hkey, hval]

/-- C2 witness: in `tC2` the pair `(3, 9)` is live at slot 494 (the probe
start for hash 494); re-inserting it fails, leaves the table unchanged, and
`GetValue` yields exactly one 9. -/
theorem insert_duplicate_rejected_witness :
    tC2.Insert 3 9 494 = (false, tC2) ∧
    ((tC2.GetValue 3 494).2).count 9 = 1 :=
  insert_duplicate_rejected tC2 3 9 494 bC2 494 rfl (fun _ h => h)
    (by decide) (by decide) (by decide) rfl rfl
    (fun _ h1 h2 => absurd (lt_of_le_of_lt h1 h2) (lt_irrefl _))
    (by
      intro i h1 h2 hr _ _
      simp only [BLOCK_ARRAY_SIZE] at h1 h2
      rcases Nat.lt_or_ge i 495 with hlt | hge
      · omega
      · have hi2 : i = 495 := by omega
        subst hi2
        exact absurd hr (by decide))

/-- The `Remove` probe loop touches no slot whose value differs from the
removed one: readable bit, key and value of such a slot are preserved. -/
theorem removeLoop_preserves (k v : Int) :
    ∀ gas (b : HashTableBlockPage) (offset j : Nat), b.ValueAt j ≠ v →
      ((removeLoop k v gas b offset).2.IsReadable j = b.IsReadable j ∧
       (removeLoop k v gas b offset).2.KeyAt j = b.KeyAt j ∧
       (removeLoop k v gas b offset).2.ValueAt j = b.ValueAt j) := by
  intro gas
  induction gas with
  | zero => intro b offset j _; exact ⟨rfl, rfl, rfl⟩
  | succ g ih =>
    intro b offset j hne
    by_cases hc : (b.IsReadable offset && (b.KeyAt offset == k) &&
        (b.ValueAt offset == v)) = true
    · have hvo : b.ValueAt offset = v := by
        rw [Bool.and_eq_true, Bool.and_eq_true] at hc
        exact beq_iff_eq.mp hc.2
      have hj : j ≠ offset := fun h => hne (h ▸ hvo)
      simp only [removeLoop, hc, if_true]
      unfold HashTableBlockPage.Remove
      by_cases hgo : BITMAP_BYTES ≤ offset / 8
      · simp [hgo]
      · simp only [hgo, if_false]
        refine ⟨?_, rfl, rfl⟩
        unfold HashTableBlockPage.IsReadable
        by_cases hgj : BITMAP_BYTES ≤ j / 8
        · simp [hgj]
        · simp [hgj, hj]
    · simp only [removeLoop, hc, if_false, Bool.false_eq_true]
      exact ih b (offset + 1) j hne

/-- C6: a live pair `(k, v2)` with `v2 ≠ v` at probe index `j` of the
selected block is findable by `GetValue(k)` both before and after
`Remove(k, v)` — the tombstoning removal leaves it untouched. -/
theorem remove_preserves_later_match (t : LinearProbeHashTable) (k v v2 : Int)
    (hashVal : Nat) (b : HashTableBlockPage) (j : Nat)
    (hb : t.blocks[hashVal % t.num_buckets]? = some b)
    (hoff : hashVal % BLOCK_ARRAY_SIZE ≤ j) (hj : j < BLOCK_ARRAY_SIZE)
    (hread : b.IsReadable j = true) (hkey : b.KeyAt j = k)
    (hval : b.ValueAt j = v2) (hne : v2 ≠ v) :
    v2 ∈ (t.GetValue k hashVal).2 ∧
    v2 ∈ (((t.Remove k v hashVal).2).GetValue k hashVal).2 := by
  have hnev : b.ValueAt j ≠ v := by rw [hval]; exact hne
  have h1 : (t.GetValue k hashVal).2 =
      getLoop b k (BLOCK_ARRAY_SIZE - hashVal % BLOCK_ARRAY_SIZE)
        (hashVal % BLOCK_ARRAY_SIZE) := by
    simp [LinearProbeHashTable.GetValue, hb]
  have hlen : hashVal % t.num_buckets < t.blocks.length := by
    by_contra hc
    push_neg at hc
    rw [List.getElem?_eq_none hc] at hb
    cases hb
  constructor
  · rw [h1, ← hval]
    exact getLoop_mem b k j _ _ hoff (by omega) hread hkey
  · have hrem : (t.Remove k v hashVal).2 =
        { t with blocks := (t.blocks.set (hashVal % t.num_buckets)
            (removeLoop k v (BLOCK_ARRAY_SIZE - hashVal % BLOCK_ARRAY_SIZE) b
              (hashVal % BLOCK_ARRAY_SIZE)).2) } := by
      simp [LinearProbeHashTable.Remove, hb]
    have hb2 : ((t.Remove k v hashVal).2).blocks[hashVal % t.num_buckets]? =
        some (removeLoop k v (BLOCK_ARRAY_SIZE - hashVal % BLOCK_ARRAY_SIZE) b
          (hashVal % BLOCK_ARRAY_SIZE)).2 := by
      rw [hrem]
      exact list_getElem?_set_self _ _ _ hlen
    have hnb : ((t.Remove k v hashVal).2).num_buckets = t.num_buckets := by
      rw [hrem]
    have h2 : (((t.Remove k v hashVal).2).GetValue k hashVal).2 =
        getLoop (removeLoop k v (BLOCK_ARRAY_SIZE - hashVal % BLOCK_ARRAY_SIZE) b
            (hashVal % BLOCK_ARRAY_SIZE)).2 k
          (BLOCK_ARRAY_SIZE - hashVal % BLOCK_ARRAY_SIZE)
          (hashVal % BLOCK_ARRAY_SIZE) := by
      simp [LinearProbeHashTable.GetValue, hnb, hb2]
    obtain ⟨hr', hk', hv'⟩ := removeLoop_preserves k v
      (BLOCK_ARRAY_SIZE - hashVal % BLOCK_ARRAY_SIZE) b
      (hashVal % BLOCK_ARRAY_SIZE) j hnev
    rw [h2, ← hval, ← hv']
    exact getLoop_mem _ k j _ _ hoff (by omega)
      (by rw [hr']; exact hread) (by rw [hk']; exact hkey)

/-- C6 witness: in `tC6`, `(1, 5)` is live at slot 494 and `(1, 7)` at
slot 495; after `Remove(1, 5)` the pair `(1, 7)` is still returned. -/
theorem remove_preserves_later_match_witness :
    (7 : Int) ∈ (tC6.GetValue 1 494).2 ∧
    (7 : Int) ∈ (((tC6.Remove 1 5 494).2).GetValue 1 494).2 :=
  remove_preserves_later_match tC6 1 5 7 494 bC6 495 rfl (by decide)
    (by decide) (by decide) rfl rfl (by decide)

/-- C1: `DeletePageImpl` never removes the deleted frame from the replacer.
After `FetchPage(5)`; `UnpinPage(5, false)` on a pool of size 1, frame 0
holds page 5 unpinned and is registered in the replacer; a successful
`DeletePage(5)` then leaves frame 0 simultaneously on the free list and in
the replacer (`in_f 0` still true), violating the free-list/replacer
disjointness invariant the claim states. -/
theorem delete_leaves_frame_in_replacer :
    (DeletePageImpl mC1 5).1 = true ∧
    (DeletePageImpl mC1 5).2.free_list_ = [0] ∧
    (DeletePageImpl mC1 5).2.replacer_.in_f 0 = true ∧
    (DeletePageImpl mC1 5).2.page_table_ 5 = none := by
  decide

/-- C8 counterexample: (a) for a non-resident page id, `FetchPage(7)`;
`UnpinPage(7, false)` caches the page — the page table changes; (b) in
`mC8`, page 8 is resident at frame 1 with pin count 0 and a cleared ref
bit, and the pair `FetchPage(8)`; `UnpinPage(8, false)` raises the ref bit
— the replacer state changes. -/
theorem fetch_unpin_not_identity :
    ((mkBufferPoolManager 1 dZero).page_table_ 7 = none ∧
     (fetchThenUnpin (mkBufferPoolManager 1 dZero) 7).2.page_table_ 7 = some 0) ∧
    (mC8.page_table_ 8 = some 1 ∧
     (mC8.pages_ 1).pin_count_ = 0 ∧
     mC8.replacer_.ref_f 1 = false ∧
     (fetchThenUnpin mC8 8).2.replacer_.ref_f 1 = true) := by
  decide

/-- Pinning a frame that is not in the replacer leaves it unchanged. -/
theorem pin_of_not_in (r : ClockReplacer) (f : Nat) (h : r.in_f f = false) :
    r.Pin f = r := by
  unfold ClockReplacer.Pin
  split
  · rfl
  · have hfn : (fun j => if j = f then false else r.in_f j) = r.in_f := by
      funext j
      by_cases hj : j = f
      · subst hj; simp [h]
      · simp [hj]
    rw [hfn]

/-- C8 amended: for a page `p` resident at an in-range frame `f` with
non-negative pin count that is not in the replacer while pinned
(invariants of every reachable state): `FetchPage(p)`; `UnpinPage(p,false)`
returns `true` and leaves page table, free list, disk and every frame
field — pin count included — unchanged; the replacer is completely
unchanged when the prior pin count was positive, and when it was 0 the
only replacer change is that frame `f`'s `in_f` and `ref_f` bits end
`true` (so a cleared ref bit is raised). -/
theorem fetch_unpin_restores (m : BufferPoolManager) (p : Int) (f : Nat)
    (hres : m.page_table_ p = some f)
    (hf : f < m.replacer_.buffer_size)
    (hpin : 0 ≤ (m.pages_ f).pin_count_)
    (hinv : 0 < (m.pages_ f).pin_count_ → m.replacer_.in_f f = false) :
    (fetchThenUnpin m p).1 = true ∧
    (fetchThenUnpin m p).2.page_table_ = m.page_table_ ∧
    (fetchThenUnpin m p).2.free_list_ = m.free_list_ ∧
    (fetchThenUnpin m p).2.disk_ = m.disk_ ∧
    (fetchThenUnpin m p).2.pool_size_ = m.pool_size_ ∧
    (∀ g, (fetchThenUnpin m p).2.pages_ g = m.pages_ g) ∧
    (fetchThenUnpin m p).2.replacer_.buffer_size = m.replacer_.buffer_size ∧
    (fetchThenUnpin m p).2.replacer_.clock_hand = m.replacer_.clock_hand ∧
    ((m.pages_ f).pin_count_ = 0 →
      (fetchThenUnpin m p).2.replacer_.in_f f = true ∧
      (fetchThenUnpin m p).2.replacer_.ref_f f = true ∧
      (∀ g, g ≠ f →
        (fetchThenUnpin m p).2.replacer_.in_f g = m.replacer_.in_f g ∧
        (fetchThenUnpin m p).2.replacer_.ref_f g = m.replacer_.ref_f g)) ∧
    (0 < (m.pages_ f).pin_count_ →
      (fetchThenUnpin m p).2.replacer_ = m.replacer_) := by
  have hfne : ¬ (m.replacer_.buffer_size ≤ f) := by omega
  rcases hpin.lt_or_eq with hpos | hz0
  · -- prior pin count positive
    have hne0 : ¬ ((m.pages_ f).pin_count_ = 0) := by omega
    have hnle : ¬ ((m.pages_ f).pin_count_ + 1 ≤ 0) := by omega
    refine ⟨?_, ?_, ?_, ?_, ?_, ?_, ?_, ?_, ?_, ?_⟩
    · simp [fetchThenUnpin, FetchPageImpl, UnpinPageImpl, setFrame, hres,
        hnle, hne0]
    · simp [fetchThenUnpin, FetchPageImpl, UnpinPageImpl, setFrame, hres,
        hnle, hne0]
    · simp [fetchThenUnpin, FetchPageImpl, UnpinPageImpl, setFrame, hres,
        hnle, hne0]
    · simp [fetchThenUnpin, FetchPageImpl, UnpinPageImpl, setFrame, hres,
        hnle, hne0]
    · simp [fetchThenUnpin, FetchPageImpl, UnpinPageImpl, setFrame, hres,
        hnle, hne0]
    · intro g
      by_cases hg : g = f
      · subst hg
        simp [fetchThenUnpin, FetchPageImpl, UnpinPageImpl, setFrame, hres,
          hnle, hne0]
      · simp [fetchThenUnpin, FetchPageImpl, UnpinPageImpl, setFrame, hres,
          hnle, hne0, hg]
    · simp [fetchThenUnpin, FetchPageImpl, UnpinPageImpl, setFrame, hres,
        hnle, hne0, ClockReplacer.Pin, hfne]
    · simp [fetchThenUnpin, FetchPageImpl, UnpinPageImpl, setFrame, hres,
        hnle, hne0, ClockReplacer.Pin, hfne]
    · intro hz
      exact absurd hz hne0
    · intro _
      have hPin : m.replacer_.Pin f = m.replacer_ := pin_of_not_in _ _ (hinv hpos)
      simp [fetchThenUnpin, FetchPageImpl, UnpinPageImpl, setFrame, hres,
        hnle, hne0, hPin]
  · -- prior pin count zero
    have hzero : (m.pages_ f).pin_count_ = 0 := hz0.symm
    refine ⟨?_, ?_, ?_, ?_, ?_, ?_, ?_, ?_, ?_, ?_⟩
    · simp [fetchThenUnpin, FetchPageImpl, UnpinPageImpl, setFrame, hres, hzero]
    · simp [fetchThenUnpin, FetchPageImpl, UnpinPageImpl, setFrame, hres, hzero]
    · simp [fetchThenUnpin, FetchPageImpl, UnpinPageImpl, setFrame, hres, hzero]
    · simp [fetchThenUnpin, FetchPageImpl, UnpinPageImpl, setFrame, hres, hzero]
    · simp [fetchThenUnpin, FetchPageImpl, UnpinPageImpl, setFrame, hres, hzero]
    · intro g
      by_cases hg : g = f
      · subst hg
        simp [fetchThenUnpin, FetchPageImpl, UnpinPageImpl, setFrame, hres, hzero]
        rw [← hzero]
      · simp [fetchThenUnpin, FetchPageImpl, UnpinPageImpl, setFrame, hres,
          hzero, hg]
    · simp [fetchThenUnpin, FetchPageImpl, UnpinPageImpl, setFrame, hres,
        hzero, ClockReplacer.Pin, ClockReplacer.Unpin, hfne]
    · simp [fetchThenUnpin, FetchPageImpl, UnpinPageImpl, setFrame, hres,
        hzero, ClockReplacer.Pin, ClockReplacer.Unpin, hfne]
    · intro _
      refine ⟨?_, ?_, ?_⟩
      · simp [fetchThenUnpin, FetchPageImpl, UnpinPageImpl, setFrame, hres,
          hzero, ClockReplacer.Pin, ClockReplacer.Unpin, hfne]
      · simp [fetchThenUnpin, FetchPageImpl, UnpinPageImpl, setFrame, hres,
          hzero, ClockReplacer.Pin, ClockReplacer.Unpin, hfne]
      · intro g hg
        constructor
        · simp [fetchThenUnpin, FetchPageImpl, UnpinPageImpl, setFrame, hres,
            hzero, ClockReplacer.Pin, ClockReplacer.Unpin, hfne, hg]
        · simp [fetchThenUnpin, FetchPageImpl, UnpinPageImpl, setFrame, hres,
            hzero, ClockReplacer.Pin, ClockReplacer.Unpin, hfne, hg]
    · intro hp
      exact absurd hzero (by omega)

/-- C8 amended witness: in `mC8` page 8 is resident at frame 1 with pin
count 0; the pair returns `true`, restores the frame, and ends with frame
1's `in_f` bit set. -/
theorem fetch_unpin_restores_witness :
    (fetchThenUnpin mC8 8).1 = true ∧
    (fetchThenUnpin mC8 8).2.pages_ 1 = mC8.pages_ 1 ∧
    (fetchThenUnpin mC8 8).2.replacer_.in_f 1 = true := by
  have h := fetch_unpin_restores mC8 8 1 (by decide) (by decide) (by decide)
    (by decide)
  exact ⟨h.1, h.2.2.2.2.2.1 1, (h.2.2.2.2.2.2.2.2.1 (by decide)).1⟩
